import Mathlib

/-!
Verification of the grid simulation engine of the `lenia` repository
(`src/main.rs`).  The engine holds a 2D grid of `f32` cell values
(`Vec<Vec<f32>>`) and steps it either with a discrete Game-of-Life rule
(`compute_next_gol_frame`, with an active-set optimisation) or with a
continuous Lenia rule (`compute_next_lenia_frame`).

The embedding represents `f32`/`f64` values by elements of a linear ordered
field (instantiated at `ℚ` for executable, decidable claims and at `ℝ` for
the claims involving `exp`).  All arithmetic that the claims exercise is
exact in `f32` (sums of at most eight values from `{0.0, 1.0, 0.5}`,
comparisons against `0.0`/`1.0`, clamps), so the field model agrees with the
floating-point program on every input used in a theorem or counterexample.
The one non-real float path — the Continuous step's `0.0 / 0.0 = NaN`
normalisation when every kernel weight is zero (kernel radius `≤ 1`) — is
modelled explicitly as an undefined (`none`) result by `leniaFrameChecked`,
never by a real value.  `usize` arithmetic is modelled by `ℕ`, `isize` by
`ℤ`; out-of-bounds indexing and arithmetic panics are modelled separately by
the `Option`-returning `Checked` variants of the operations.
-/

set_option linter.unusedSectionVars false
set_option linter.unusedVariables false

namespace LeniaSim

/-- The grid type `Vec<Vec<f32>>` of `struct Lenia`: a list of rows. -/
abbrev Cells (α : Type) := List (List α)

variable {α : Type} [LinearOrderedField α] [FloorRing α] [DecidableEq α]

/-- Read one cell, `self.cells[r][c]`.  Out-of-range reads return `0`
(the Rust code panics there; panics are modelled by the `Checked`
definitions below, so a claim about a panicking run never relies on this
default). -/
def readCell (cells : Cells α) (r c : ℕ) : α :=
  (cells.getD r []).getD c 0

/-- The width the step functions use, `self.cells[0].len()`. -/
def width (cells : Cells α) : ℕ := (cells.getD 0 []).length

/-- The number of rows, `self.cells.len()`. -/
def height (cells : Cells α) : ℕ := cells.length

/-- Build an `h × w` grid whose cell `(r, c)` holds `f r c`. -/
def gridOfFn (w h : ℕ) (f : ℕ → ℕ → α) : Cells α :=
  (List.range h).map fun r => (List.range w).map fun c => f r c

/-- The `top_raw` / `left_col` toroidal wrap of `compute_next_gol_frame`
(src/main.rs lines 149-156): `n - 1` if `i == 0`, else `i - 1`. -/
def wrapDec (n i : ℕ) : ℕ := if i = 0 then n - 1 else i - 1

/-- The `bottom_raw` / `right_col` toroidal wrap of `compute_next_gol_frame`
(src/main.rs lines 149-156): `0` if `i == n - 1`, else `i + 1`. -/
def wrapInc (n i : ℕ) : ℕ := if i = n - 1 then 0 else i + 1

/-- The `neighbours` array of `update_cell` (src/main.rs lines 158-167):
the values of the eight toroidally wrapped neighbours of `(r, c)`, in
source order. -/
def neighbourValues (cells : Cells α) (r c : ℕ) : List α :=
  [readCell cells (wrapDec (height cells) r) (wrapDec (width cells) c),
   readCell cells (wrapDec (height cells) r) c,
   readCell cells (wrapDec (height cells) r) (wrapInc (width cells) c),
   readCell cells r (wrapDec (width cells) c),
   readCell cells r (wrapInc (width cells) c),
   readCell cells (wrapInc (height cells) r) (wrapDec (width cells) c),
   readCell cells (wrapInc (height cells) r) c,
   readCell cells (wrapInc (height cells) r) (wrapInc (width cells) c)]

/-- The cast `sum::<f32>() as usize`: an `f32`-to-`usize` cast truncates toward zero
and saturates negative values at `0`, which on the field model is
`Int.toNat ∘ Int.floor`. -/
def floatToUsize (x : α) : ℕ := (⌊x⌋ : ℤ).toNat

/-- The body of the `update_cell` closure (src/main.rs lines 148-178): the
next value of cell `(r, c)` computed from the previous frame.  A cell is
alive iff its value is exactly `1.0`; the live-neighbour count is the
truncated sum of the eight neighbour values. -/
def update_cell (cells : Cells α) (r c : ℕ) : α :=
  let is_alive := readCell cells r c = 1
  let alive_cells_count := floatToUsize (neighbourValues cells r c).sum
  if (is_alive ∧ (2 ≤ alive_cells_count ∧ alive_cells_count ≤ 3)) ∨
     (¬is_alive ∧ alive_cells_count = 3) then 1 else 0

/-- The part of `struct Lenia` that the Game-of-Life step touches:
`cells` and `active_cells`. -/
structure GolState (α : Type) where
  cells : Cells α
  active : Finset (ℕ × ℕ)

/-- The nine cells inserted into `next_frame_active_cells` when cell
`(r, c)` changed (src/main.rs lines 181-191): the cell and its eight
wrapped neighbours. -/
def nbhd9 (w h r c : ℕ) : Finset (ℕ × ℕ) :=
  {(r, c), (wrapDec h r, wrapDec w c), (wrapDec h r, c),
   (wrapDec h r, wrapInc w c), (r, wrapDec w c), (r, wrapInc w c),
   (wrapInc h r, wrapDec w c), (wrapInc h r, c), (wrapInc h r, wrapInc w c)}

/-- The set of cells `update_cell` is called on (src/main.rs lines
194-204): every in-range cell when `active_cells` is empty, otherwise
exactly the active cells. -/
def evalSet (s : GolState α) : Finset (ℕ × ℕ) :=
  if s.active = ∅ then Finset.range (height s.cells) ×ˢ Finset.range (width s.cells)
  else s.active

/-- Model of `compute_next_gol_frame` (src/main.rs lines 142-208).
`next_frame_cells` starts as a clone of `cells` and every evaluated cell is
overwritten with `update_cell`; on a rectangular grid this is the
`gridOfFn` below.  `next_frame_active_cells` collects, for every evaluated
cell whose value changed, that cell and its eight wrapped neighbours. -/
def compute_next_gol_frame (s : GolState α) : GolState α :=
  let w := width s.cells
  let h := height s.cells
  { cells := gridOfFn w h fun r c =>
      if (r, c) ∈ evalSet s then update_cell s.cells r c else readCell s.cells r c,
    active := (evalSet s).filter
        (fun p => update_cell s.cells p.1 p.2 ≠ readCell s.cells p.1 p.2)
      |>.biUnion fun p => nbhd9 w h p.1 p.2 }

/-- Spec-side reference step for the refinement claim C1: one Discrete step
in which every cell of the grid is evaluated. -/
def golFullEvalStep (cells : Cells α) : Cells α :=
  gridOfFn (width cells) (height cells) fun r c => update_cell cells r c

/-- A cell outside `A` is a fixed point of the rule: re-evaluating it would
reproduce its current value.  This is the soundness invariant of the
active set. -/
def Fixed (cells : Cells α) (A : Finset (ℕ × ℕ)) : Prop :=
  ∀ r c, r < height cells → c < width cells → (r, c) ∉ A →
    update_cell cells r c = readCell cells r c

/-- Concrete grid for the first C8 counterexample: a lone live cell at
`(0, 0)` on a 3×3 grid. -/
def c8LoneGrid : Cells ℚ := [[1, 0, 0], [0, 0, 0], [0, 0, 0]]

/-- Concrete grid for the second C8 counterexample: a live cell at `(1, 1)`
whose eight toroidal neighbours are all dead (six of them hold `0.5`), yet
their values sum to `3.0`. -/
def c8HalfGrid : Cells ℚ :=
  [[1/2, 1/2, 1/2], [1/2, 1, 1/2], [0, 1/2, 0]]

/-- The live cells of the standard 5-cell glider used for C9, placed near
the top-left corner of the 16×16 grid. -/
def gliderCells : List (ℕ × ℕ) := [(1, 2), (2, 3), (3, 1), (3, 2), (3, 3)]

/-- The 16×16 grid holding the glider and nothing else. -/
def glider16 : Cells ℚ :=
  gridOfFn 16 16 fun r c => if (r, c) ∈ gliderCells then 1 else 0

/-- The same grid with the glider translated one cell down and one cell
right. -/
def glider16Shifted : Cells ℚ :=
  gridOfFn 16 16 fun r c =>
    if (r, c) ∈ gliderCells.map (fun p => (p.1 + 1, p.2 + 1)) then 1 else 0

/-- Model of `Vec::resize(n, pad)`: truncate to `n` elements or extend with
copies of `pad`. -/
def listResize {β : Type} (l : List β) (n : ℕ) (pad : β) : List β :=
  l.take n ++ List.replicate (n - l.length) pad

/-- The width pass of `resize` (src/main.rs lines 66-70): if the requested
width differs from `self.cells[0].len()`, every row is resized to the new
width with `0.0` padding; otherwise the rows are untouched. -/
def resizeWidth (cells : Cells α) (new_cell_width_count : ℕ) : Cells α :=
  if new_cell_width_count ≠ width cells then
    cells.map fun row => listResize row new_cell_width_count 0
  else cells

/-- Model of `resize` (src/main.rs lines 65-75): the width pass followed by the
height pass, which resizes the row list with all-zero rows of the new
width when the requested height differs from the current row count. -/
def resize (cells : Cells α) (new_cell_width_count new_cell_height_count : ℕ) : Cells α :=
  if new_cell_height_count ≠ (resizeWidth cells new_cell_width_count).length then
    listResize (resizeWidth cells new_cell_width_count) new_cell_height_count
      (List.replicate new_cell_width_count 0)
  else resizeWidth cells new_cell_width_count

/-- The offsets `-kernel_radius ..= kernel_radius` that each of the two
nested neighbour loops of `compute_next_lenia_frame` ranges over
(src/main.rs lines 106-111). -/
def loopOffsets (kernel_radius : ℕ) : List ℤ :=
  (List.range (2 * kernel_radius + 1)).map fun i => (i : ℤ) - kernel_radius

/-- The offset pairs the Lenia step actually accumulates: all loop offset
pairs except the cell itself and those at Manhattan distance beyond the
kernel radius (the two `continue`s, src/main.rs lines 112-119). -/
def validOffsets (kernel_radius : ℕ) : List (ℤ × ℤ) :=
  ((loopOffsets kernel_radius).flatMap fun dr =>
    (loopOffsets kernel_radius).map fun dc => (dr, dc)).filter fun p =>
      ¬(p.1 = 0 ∧ p.2 = 0) ∧ p.1.natAbs + p.2.natAbs ≤ kernel_radius

/-- The toroidal wrap of the Lenia step, `rem_euclid(dim as isize - 1)`
(src/main.rs lines 124-127).  For `dim ≥ 2` this is the Euclidean
remainder modulo `dim - 1`, never reaching index `dim - 1`; for `dim = 1`
the Rust modulus is zero and `rem_euclid` panics (see `stepChecked`). -/
def leniaWrap (dim : ℕ) (i : ℤ) : ℕ := (i % ((dim : ℤ) - 1)).toNat

/-- The wrapped grid coordinate `(ypos, xpos)` that the Lenia step reads
for the neighbour at offset `(dr, dc)` of cell `(raw, col)`
(src/main.rs lines 124-128). -/
def leniaReadPosition (w h raw col : ℕ) (p : ℤ × ℤ) : ℕ × ℕ :=
  (leniaWrap h ((raw : ℤ) + p.1), leniaWrap w ((col : ℤ) + p.2))

/-- Every grid coordinate the Lenia step reads while computing the
potential of cell `(raw, col)`. -/
def leniaReadPositions (w h kernel_radius raw col : ℕ) : List (ℕ × ℕ) :=
  (validOffsets kernel_radius).map (leniaReadPosition w h raw col)

open scoped Classical in
/-- Model of `kernel_core_function` (src/main.rs lines 86-90) with
`ALPHA = 4`; `r` is the distance ratio rounded to one decimal (the Rust
`round` rounds half away from zero, which agrees with Mathlib `round` on
these nonnegative arguments).  When `4r(1-r) = 0` (ratio `0` or `1`) the
Rust `f64` division yields `+∞` and `exp(4(1-∞)) = 0`; the real-valued
model states that case explicitly. -/
noncomputable def kernel_core_function (distance_from_cell kernel_radius : ℕ) : ℝ :=
  let r : ℝ := ((round (((distance_from_cell : ℝ) / (kernel_radius : ℝ)) * 10) : ℤ) : ℝ) / 10
  if 4 * r * (1 - r) = 0 then 0
  else Real.exp (4 * (1 - 1 / (4 * r * (1 - r))))

/-- Model of `growth_function` (src/main.rs lines 91-98) with `MU = 0.31`,
`SIGMA = 0.049` and `K = 2 * SIGMA * SIGMA`. -/
noncomputable def growth_function (potential_distribution : ℝ) : ℝ :=
  let l := |potential_distribution - 0.31|
  2 * Real.exp (-(l * l) / (2 * 0.049 * 0.049)) - 1

/-- The kernel normaliser `max_kernel` accumulated by
`compute_next_lenia_frame` for every cell (src/main.rs lines 105,
120-122): the sum of the kernel weights over the valid offsets.  It does
not depend on the cell, so the model hoists it out of the per-cell loop.
It is `0.0` exactly when every weight is `0.0` — in particular for
`kernel_radius ≤ 1`, where every valid distance has rounded ratio `1`, or
there is no valid offset at all — and then the program's normalisation
`potential_distribution /= max_kernel` (src/main.rs line 131) computes
`0.0 / 0.0 = NaN`; see `leniaFrameChecked`. -/
noncomputable def max_kernel (kernel_radius : ℕ) : ℝ :=
  ((validOffsets kernel_radius).map fun p =>
    kernel_core_function (p.1.natAbs + p.2.natAbs) kernel_radius).sum

/-- Model of `compute_next_lenia_frame` (src/main.rs lines 84-140) on its
real-valued domain: for every cell, accumulate the weighted neighbour sum
(`potential_distribution`) over the valid offsets, normalise by
`max_kernel`, apply the growth function, and clamp the integrated value
to `[0, 1]`.  When `max_kernel kernel_radius = 0` and the grid has at
least one cell, the Rust program instead computes `0.0 / 0.0 = NaN`,
which propagates through `growth_function` and `clamp` and fills the grid
with NaN; that path has no real-valued result and is modelled as `none`
by `leniaFrameChecked` — the value this function takes there through
Lean's `x / 0 = 0` convention is outside the model's domain and no claim
relies on it. -/
noncomputable def compute_next_lenia_frame (cells : Cells ℝ) (delta_t : ℝ)
    (kernel_radius : ℕ) : Cells ℝ :=
  let w := width cells
  let h := height cells
  gridOfFn w h fun raw col =>
    let potential_distribution := ((validOffsets kernel_radius).map fun p =>
      readCell cells (leniaReadPosition w h raw col p).1 (leniaReadPosition w h raw col p).2 *
        kernel_core_function (p.1.natAbs + p.2.natAbs) kernel_radius).sum
    let growth_mapping := growth_function (potential_distribution / max_kernel kernel_radius)
    max 0 (min (readCell cells raw col + delta_t * growth_mapping) 1)

/-- The two run modes (src/main.rs lines 14-17). -/
inductive Mode where
  | Lenia : Mode
  | GameOfLife : Mode
deriving DecidableEq

/-- The fields of `struct Lenia` (src/main.rs lines 19-26), with `f32`
cell values and `f64` `delta_t` both modelled over `ℝ`. -/
structure Lenia where
  cells : Cells ℝ
  active_cells : Finset (ℕ × ℕ)
  mode : Mode
  delta_t : ℝ
  kernel_radius : ℕ

/-- One pass of `iter_mut().take(hi + 1).skip(lo)` starting at index `k`:
apply `f` to every element whose index lies in `[lo, hi]`. -/
def overwriteRegion {β : Type} (lo hi : ℕ) (f : ℕ → β → β) : ℕ → List β → List β
  | _, [] => []
  | k, x :: xs => (if lo ≤ k ∧ k ≤ hi then f k x else x) :: overwriteRegion lo hi f (k + 1) xs

/-- The seeding double loop shared by `Lenia::new` (src/main.rs lines
47-54) and the runtime `'r'` handler (lines 304-312): overwrite every cell
with row index in `[area_h_min, area_h_max]` and column index in
`[area_w_min, area_w_max]` by a fresh random draw, modelled by the value
function `seed`. -/
def fillRegion (area_w_min area_w_max area_h_min area_h_max : ℕ)
    (seed : ℕ → ℕ → ℝ) (cells : Cells ℝ) : Cells ℝ :=
  overwriteRegion area_h_min area_h_max
    (fun r row => overwriteRegion area_w_min area_w_max (fun c _ => seed r c) 0 row) 0 cells

/-- Model of `Lenia::new` (src/main.rs lines 29-63): clamp the region
maxima into the grid, allocate an all-zero grid, seed the clamped region,
and start with an empty active set.  The random draws are a parameter
`seed`; the optional arguments are the already-resolved mode, `delta_t`
and `kernel_radius` (the `None` defaults `Mode::Lenia`, `1.0` and `13` are
particular instantiations). -/
def Lenia.new (wcell_count hcell_count : ℕ)
    (area_w_min area_w_max area_h_min area_h_max : ℕ)
    (mode : Mode) (delta_t : ℝ) (kernel_radius : ℕ) (seed : ℕ → ℕ → ℝ) : Lenia :=
  let w_max := if area_w_max ≥ wcell_count then wcell_count - 1 else area_w_max
  let h_max := if area_h_max ≥ hcell_count then hcell_count - 1 else area_h_max
  { cells := fillRegion area_w_min w_max area_h_min h_max seed
      (List.replicate hcell_count (List.replicate wcell_count 0)),
    active_cells := ∅,
    mode := mode,
    delta_t := delta_t,
    kernel_radius := kernel_radius }

/-- Whether the indexing `cells[r][c]` is in bounds (its failure is a Rust
panic). -/
@[reducible] def idxOk (cells : Cells ℝ) (r c : ℕ) : Prop :=
  r < cells.length ∧ c < (cells.getD r []).length

/-- Model of `Lenia::new` with the debug-build panic made explicit: when a
region maximum is at least the cell count the clamp computes `count - 1`,
a `usize` subtraction that underflows (panics) exactly when the count is
zero (src/main.rs lines 39-44).  Since a maximum is always `≥ 0`, a zero
count always panics. -/
def newChecked (wcell_count hcell_count : ℕ)
    (area_w_min area_w_max area_h_min area_h_max : ℕ)
    (mode : Mode) (delta_t : ℝ) (kernel_radius : ℕ) (seed : ℕ → ℕ → ℝ) : Option Lenia :=
  if area_w_max ≥ wcell_count ∧ wcell_count = 0 then none
  else if area_h_max ≥ hcell_count ∧ hcell_count = 0 then none
  else some (Lenia.new wcell_count hcell_count area_w_min area_w_max area_h_min area_h_max
    mode delta_t kernel_radius seed)

/-- Model of `resize` with the panic made explicit: reading
`self.cells[0].len()` (src/main.rs line 66) panics exactly when the grid
has no rows; the rest of `resize` only indexes rows below the current
count. -/
noncomputable def resizeChecked (s : Lenia) (nw nh : ℕ) : Option Lenia :=
  if s.cells.length = 0 then none
  else some { s with cells := resize s.cells nw nh }

/-- The grid accesses the evaluation of cell `(raw, col)` makes in
`compute_next_gol_frame`: the eight `neighbours` reads, the read of
`self.cells[raw][col]`, and the write `next_frame_cells[raw][col]` (a
clone of `cells`, so with the same shape). -/
@[reducible] def golAccessesOk (cells : Cells ℝ) (raw col : ℕ) : Prop :=
  idxOk cells raw col ∧
  idxOk cells (wrapDec (height cells) raw) (wrapDec (width cells) col) ∧
  idxOk cells (wrapDec (height cells) raw) col ∧
  idxOk cells (wrapDec (height cells) raw) (wrapInc (width cells) col) ∧
  idxOk cells raw (wrapDec (width cells) col) ∧
  idxOk cells raw (wrapInc (width cells) col) ∧
  idxOk cells (wrapInc (height cells) raw) (wrapDec (width cells) col) ∧
  idxOk cells (wrapInc (height cells) raw) col ∧
  idxOk cells (wrapInc (height cells) raw) (wrapInc (width cells) col)

/-- Model of `compute_next_gol_frame` with the panics made explicit:
reading `self.cells[0].len()` (src/main.rs line 143) panics on an empty
grid, and evaluating a cell panics when one of its accesses is out of
bounds — possible when a shrinking `resize` leaves stale coordinates in
`active_cells`. -/
noncomputable def golStepChecked (s : Lenia) : Option Lenia :=
  if s.cells.length = 0 then none
  else if ∀ p ∈ evalSet (⟨s.cells, s.active_cells⟩ : GolState ℝ), golAccessesOk s.cells p.1 p.2
  then some { s with
    cells := (compute_next_gol_frame (⟨s.cells, s.active_cells⟩ : GolState ℝ)).cells,
    active_cells := (compute_next_gol_frame (⟨s.cells, s.active_cells⟩ : GolState ℝ)).active }
  else none

/-- Model of `compute_next_lenia_frame` with the panics made explicit:
reading `self.cells[0].len()` (src/main.rs line 85) panics on an empty
grid; with at least one evaluated cell and a nonzero kernel radius,
`rem_euclid(dim as isize - 1)` divides by zero (panics) when a dimension
is `1`; and a neighbour read panics when its wrapped coordinate is out of
the actual row bounds (possible on a ragged grid only). -/
noncomputable def leniaStepChecked (s : Lenia) : Option Lenia :=
  if s.cells.length = 0 then none
  else if 0 < width s.cells ∧ 1 ≤ s.kernel_radius ∧
      (width s.cells = 1 ∨ height s.cells = 1) then none
  else if ∀ raw < height s.cells, ∀ col < width s.cells,
      ∀ p ∈ leniaReadPositions (width s.cells) (height s.cells) s.kernel_radius raw col,
        idxOk s.cells p.1 p.2
  then some { s with cells := compute_next_lenia_frame s.cells s.delta_t s.kernel_radius }
  else none

/-- Model of `compute_next_frame` with the panics made explicit.  This
models panics only: a Continuous step with a zero kernel normaliser but
dimensions `≥ 2` does not panic (it silently writes NaN, see
`leniaFrameChecked`), so it is `some` here; no claim inspects the `some`
payload on that path — the C10 theorems only use the `none`/`some`
distinction. -/
noncomputable def stepChecked (s : Lenia) : Option Lenia :=
  match s.mode with
  | Mode.Lenia => leniaStepChecked s
  | Mode.GameOfLife => golStepChecked s

/-- A Discrete-mode engine state with a 1×1 grid whose active set holds
the stale coordinate `(2, 2)` — the shape a shrinking `resize` leaves
behind, since `resize` never touches `active_cells`. -/
noncomputable def c10StaleState : Lenia :=
  { cells := [[0]], active_cells := {(2, 2)}, mode := Mode.GameOfLife,
    delta_t := 1, kernel_radius := 13 }

theorem getD_map_range {β : Type} (n : ℕ) (g : ℕ → β) (i : ℕ) (d : β) :
    ((List.range n).map g).getD i d = if i < n then g i else d := by
  by_cases h : i < n
  · simp [List.getD_eq_getElem?_getD, List.getElem?_range h, h]
  · have hnone : ((List.range n).map g)[i]? = none := by
      rw [List.getElem?_eq_none]
      simpa using Nat.le_of_not_lt h
    simp [List.getD_eq_getElem?_getD, hnone, h]

theorem height_gridOfFn (w h : ℕ) (f : ℕ → ℕ → α) : height (gridOfFn w h f) = h := by
  simp [height, gridOfFn]

theorem width_gridOfFn (w h : ℕ) (f : ℕ → ℕ → α) (hh : 0 < h) :
    width (gridOfFn w h f) = w := by
  unfold width gridOfFn
  rw [getD_map_range, if_pos hh]
  simp

theorem readCell_gridOfFn (w h : ℕ) (f : ℕ → ℕ → α) (r c : ℕ) :
    readCell (gridOfFn w h f) r c = if r < h ∧ c < w then f r c else 0 := by
  unfold readCell gridOfFn
  rw [getD_map_range]
  by_cases hr : r < h
  · rw [if_pos hr, getD_map_range]
    by_cases hc : c < w
    · rw [if_pos hc, if_pos ⟨hr, hc⟩]
    · rw [if_neg hc, if_neg (fun hand => hc hand.2)]
  · rw [if_neg hr, if_neg (fun hand => hr hand.1)]
    simp

theorem gridOfFn_congr {w h : ℕ} {f g : ℕ → ℕ → α}
    (hfg : ∀ r < h, ∀ c < w, f r c = g r c) : gridOfFn w h f = gridOfFn w h g := by
  unfold gridOfFn
  apply List.map_congr_left
  intro r hr
  apply List.map_congr_left
  intro c hc
  exact hfg r (List.mem_range.mp hr) c (List.mem_range.mp hc)

theorem wrapDec_lt (n i : ℕ) (hn : 0 < n) (hi : i < n) : wrapDec n i < n := by
  unfold wrapDec
  split <;> omega

theorem wrapInc_lt (n i : ℕ) (hn : 0 < n) (hi : i < n) : wrapInc n i < n := by
  unfold wrapInc
  split <;> omega

theorem wrapInc_wrapDec (n i : ℕ) (hi : i < n) : wrapInc n (wrapDec n i) = i := by
  rcases eq_or_ne i 0 with h0 | h0
  · simp [wrapDec, wrapInc, h0]
  · have h1 : wrapDec n i = i - 1 := by simp [wrapDec, h0]
    rw [h1]
    unfold wrapInc
    split <;> omega

theorem wrapDec_wrapInc (n i : ℕ) (hi : i < n) : wrapDec n (wrapInc n i) = i := by
  rcases eq_or_ne i (n - 1) with h0 | h0
  · have h1 : wrapInc n i = 0 := by simp [wrapInc, h0]
    rw [h1]
    simp [wrapDec]
    omega
  · have h1 : wrapInc n i = i + 1 := by simp [wrapInc, h0]
    rw [h1]
    unfold wrapDec
    split <;> omega

theorem mem_nbhd9_iff (w h r c : ℕ) (p : ℕ × ℕ) :
    p ∈ nbhd9 w h r c ↔
      p = (r, c) ∨ p = (wrapDec h r, wrapDec w c) ∨ p = (wrapDec h r, c) ∨
      p = (wrapDec h r, wrapInc w c) ∨ p = (r, wrapDec w c) ∨ p = (r, wrapInc w c) ∨
      p = (wrapInc h r, wrapDec w c) ∨ p = (wrapInc h r, c) ∨
      p = (wrapInc h r, wrapInc w c) := by
  simp [nbhd9]

/-- The function `update_cell` only looks at the grid dimensions and at the values of the
cell and its eight wrapped neighbours. -/
theorem update_cell_congr (g₁ g₂ : Cells α) (r c : ℕ)
    (hw : width g₂ = width g₁) (hh : height g₂ = height g₁)
    (h9 : ∀ p ∈ nbhd9 (width g₁) (height g₁) r c, readCell g₂ p.1 p.2 = readCell g₁ p.1 p.2) :
    update_cell g₂ r c = update_cell g₁ r c := by
  have hcc := h9 (r, c) (by simp [mem_nbhd9_iff])
  have h1 := h9 (wrapDec (height g₁) r, wrapDec (width g₁) c) (by simp [mem_nbhd9_iff])
  have h2 := h9 (wrapDec (height g₁) r, c) (by simp [mem_nbhd9_iff])
  have h3 := h9 (wrapDec (height g₁) r, wrapInc (width g₁) c) (by simp [mem_nbhd9_iff])
  have h4 := h9 (r, wrapDec (width g₁) c) (by simp [mem_nbhd9_iff])
  have h5 := h9 (r, wrapInc (width g₁) c) (by simp [mem_nbhd9_iff])
  have h6 := h9 (wrapInc (height g₁) r, wrapDec (width g₁) c) (by simp [mem_nbhd9_iff])
  have h7 := h9 (wrapInc (height g₁) r, c) (by simp [mem_nbhd9_iff])
  have h8 := h9 (wrapInc (height g₁) r, wrapInc (width g₁) c) (by simp [mem_nbhd9_iff])
  simp only at hcc h1 h2 h3 h4 h5 h6 h7 h8
  unfold update_cell neighbourValues
  rw [hw, hh, hcc, h1, h2, h3, h4, h5, h6, h7, h8]

theorem cells_gol_step (s : GolState α) :
    (compute_next_gol_frame s).cells =
      gridOfFn (width s.cells) (height s.cells) fun r c =>
        if (r, c) ∈ evalSet s then update_cell s.cells r c else readCell s.cells r c := rfl

theorem mem_active_gol_step (s : GolState α) (q : ℕ × ℕ) :
    q ∈ (compute_next_gol_frame s).active ↔
      ∃ p ∈ evalSet s, update_cell s.cells p.1 p.2 ≠ readCell s.cells p.1 p.2 ∧
        q ∈ nbhd9 (width s.cells) (height s.cells) p.1 p.2 := by
  simp [compute_next_gol_frame, Finset.mem_biUnion, Finset.mem_filter, and_assoc]

theorem height_gol_step (s : GolState α) :
    height (compute_next_gol_frame s).cells = height s.cells := by
  rw [cells_gol_step]
  exact height_gridOfFn _ _ _

theorem width_gol_step (s : GolState α) (hh : 0 < height s.cells) :
    width (compute_next_gol_frame s).cells = width s.cells := by
  rw [cells_gol_step]
  exact width_gridOfFn _ _ _ hh

/-- Under the active-set invariant, the partial pass writes the same grid
as a full-grid evaluation. -/
theorem gol_step_cells_eq_full (s : GolState α)
    (hfix : s.active = ∅ ∨ Fixed s.cells s.active) :
    (compute_next_gol_frame s).cells = golFullEvalStep s.cells := by
  rw [cells_gol_step]
  unfold golFullEvalStep
  apply gridOfFn_congr
  intro r hr c hc
  by_cases hmem : (r, c) ∈ evalSet s
  · rw [if_pos hmem]
  · rw [if_neg hmem]
    rcases hfix with hemp | hfixR
    · exact absurd (by
        unfold evalSet
        rw [if_pos hemp]
        simp only [Finset.mem_product, Finset.mem_range]
        exact ⟨hr, hc⟩) hmem
    · have hne : s.active ≠ ∅ := by
        intro he
        apply hmem
        unfold evalSet
        rw [if_pos he]
        simp only [Finset.mem_product, Finset.mem_range]
        exact ⟨hr, hc⟩
      have hact : (r, c) ∉ s.active := by
        intro hA
        apply hmem
        unfold evalSet
        rw [if_neg hne]
        exact hA
      exact (hfixR r c hr hc hact).symm

/-- The step rebuilds the invariant: every cell left out of the new active
set is a fixed point of the new grid. -/
theorem gol_step_fixed (s : GolState α) (hh : 0 < height s.cells)
    (hfix : s.active = ∅ ∨ Fixed s.cells s.active) :
    Fixed (compute_next_gol_frame s).cells (compute_next_gol_frame s).active := by
  intro r c hr hc hnot
  rw [height_gol_step] at hr
  rw [width_gol_step s hh] at hc
  have h0w : 0 < width s.cells := lt_of_le_of_lt (Nat.zero_le c) hc
  -- any cell whose neighbourhood contains (r, c) was left unchanged by this step
  have hunch : ∀ x y, x < height s.cells → y < width s.cells →
      (r, c) ∈ nbhd9 (width s.cells) (height s.cells) x y →
      update_cell s.cells x y = readCell s.cells x y := by
    intro x y hx hy hmem
    by_contra hch
    have hxyE : (x, y) ∈ evalSet s := by
      unfold evalSet
      split
      · simp only [Finset.mem_product, Finset.mem_range]
        exact ⟨hx, hy⟩
      · rcases hfix with hemp | hfixR
        · exact absurd hemp (by assumption)
        · by_contra hxA
          exact hch (hfixR x y hx hy hxA)
    apply hnot
    rw [mem_active_gol_step]
    exact ⟨(x, y), hxyE, hch, hmem⟩
  -- the new grid agrees with the old one on the whole 3×3 block around (r, c)
  have hread : ∀ x y, x < height s.cells → y < width s.cells →
      (r, c) ∈ nbhd9 (width s.cells) (height s.cells) x y →
      readCell (compute_next_gol_frame s).cells x y = readCell s.cells x y := by
    intro x y hx hy hmem
    rw [cells_gol_step, readCell_gridOfFn, if_pos ⟨hx, hy⟩]
    by_cases hE : (x, y) ∈ evalSet s
    · rw [if_pos hE]
      exact hunch x y hx hy hmem
    · rw [if_neg hE]
  have hcongr : update_cell (compute_next_gol_frame s).cells r c = update_cell s.cells r c := by
    apply update_cell_congr
    · exact width_gol_step s hh
    · exact height_gol_step s
    · intro p hp
      rw [mem_nbhd9_iff] at hp
      rcases hp with h | h | h | h | h | h | h | h | h <;> subst h <;>
        apply hread <;>
        first
          | exact hr
          | exact hc
          | exact wrapDec_lt _ _ hh hr
          | exact wrapInc_lt _ _ hh hr
          | exact wrapDec_lt _ _ h0w hc
          | exact wrapInc_lt _ _ h0w hc
          | simp [mem_nbhd9_iff, wrapInc_wrapDec _ _ hr, wrapDec_wrapInc _ _ hr,
                  wrapInc_wrapDec _ _ hc, wrapDec_wrapInc _ _ hc]
  rw [hcongr, cells_gol_step, readCell_gridOfFn, if_pos ⟨hr, hc⟩]
  by_cases hE : (r, c) ∈ evalSet s
  · rw [if_pos hE]
  · rw [if_neg hE]
    rcases hfix with hemp | hfixR
    · exact absurd (by
        unfold evalSet
        rw [if_pos hemp]
        simp only [Finset.mem_product, Finset.mem_range]
        exact ⟨hr, hc⟩) hE
    · have hne : s.active ≠ ∅ := by
        intro he
        apply hE
        unfold evalSet
        rw [if_pos he]
        simp only [Finset.mem_product, Finset.mem_range]
        exact ⟨hr, hc⟩
      have hact : (r, c) ∉ s.active := by
        intro hA
        apply hE
        unfold evalSet
        rw [if_neg hne]
        exact hA
      exact hfixR r c hr hc hact

/-- Iterating the active-set step from an empty active set tracks the
full-evaluation iteration exactly, keeps the dimensions, and maintains the
soundness invariant. -/
theorem gol_iterate_spec (cells : Cells α) (hh : 0 < height cells) (n : ℕ) :
    (compute_next_gol_frame^[n] ⟨cells, ∅⟩).cells = golFullEvalStep^[n] cells ∧
    (height (compute_next_gol_frame^[n] (⟨cells, ∅⟩ : GolState α)).cells = height cells ∧
     width (compute_next_gol_frame^[n] (⟨cells, ∅⟩ : GolState α)).cells = width cells) ∧
    ((compute_next_gol_frame^[n] (⟨cells, ∅⟩ : GolState α)).active = ∅ ∨
      Fixed (compute_next_gol_frame^[n] (⟨cells, ∅⟩ : GolState α)).cells
        (compute_next_gol_frame^[n] (⟨cells, ∅⟩ : GolState α)).active) := by
  induction n with
  | zero =>
    exact ⟨rfl, ⟨rfl, rfl⟩, Or.inl rfl⟩
  | succ n ih =>
    obtain ⟨hcells, ⟨hht, hwd⟩, hfix⟩ := ih
    rw [Function.iterate_succ_apply', Function.iterate_succ_apply']
    set s := compute_next_gol_frame^[n] (⟨cells, ∅⟩ : GolState α) with hs
    have hh' : 0 < height s.cells := by rw [hht]; exact hh
    refine ⟨?_, ⟨?_, ?_⟩, Or.inr (gol_step_fixed s hh' hfix)⟩
    · rw [gol_step_cells_eq_full s hfix, hcells]
    · rw [height_gol_step, hht]
    · rw [width_gol_step s hh', hwd]

/-- C1: for every initial grid and every number of steps `n`, running `n`
Discrete steps starting from an empty ActiveSet — each step evaluating only
the active cells whenever the set is non-empty and leaving all other cells
at their previous values — produces exactly the same grid as running `n`
steps in which every cell is evaluated. -/
theorem C1_active_set_soundness (cells : Cells ℚ) (n : ℕ)
    (hrect : ∀ row ∈ cells, row.length = width cells) (hh : 0 < height cells) :
    (compute_next_gol_frame^[n] ⟨cells, ∅⟩).cells = golFullEvalStep^[n] cells :=
  (gol_iterate_spec cells hh n).1

theorem C1_active_set_soundness_witness :
    (∀ row ∈ [[(1 : ℚ), 1], [0, 0]], row.length = width [[(1 : ℚ), 1], [0, 0]]) ∧
    0 < height [[(1 : ℚ), 1], [0, 0]] ∧
    (compute_next_gol_frame^[3] ⟨[[(1 : ℚ), 1], [0, 0]], ∅⟩).cells =
      golFullEvalStep^[3] [[(1 : ℚ), 1], [0, 0]] :=
  ⟨by decide, by decide,
    C1_active_set_soundness [[(1 : ℚ), 1], [0, 0]] 3 (by decide) (by decide)⟩

/-- C3: for every cell the Discrete pass evaluates, the written value
follows the Life rule: alive iff the current value is exactly `1.0`, the
live-neighbour count is the truncated sum of the eight wrapped neighbour
values, and the next value is `1.0` exactly when (alive and count in
`{2,3}`) or (dead and count `= 3`). -/
theorem C3_discrete_rule (s : GolState ℚ) (r c : ℕ)
    (hmem : (r, c) ∈ evalSet s) (hr : r < height s.cells) (hc : c < width s.cells) :
    readCell (compute_next_gol_frame s).cells r c =
      if (readCell s.cells r c = 1 ∧
            (2 ≤ ((⌊(neighbourValues s.cells r c).sum⌋ : ℤ).toNat) ∧
              ((⌊(neighbourValues s.cells r c).sum⌋ : ℤ).toNat) ≤ 3)) ∨
         (¬readCell s.cells r c = 1 ∧ ((⌊(neighbourValues s.cells r c).sum⌋ : ℤ).toNat) = 3)
      then 1 else 0 := by
  rw [cells_gol_step, readCell_gridOfFn, if_pos ⟨hr, hc⟩, if_pos hmem]
  rfl

theorem C3_discrete_rule_witness :
    ((0, 0) ∈ evalSet (⟨[[(1 : ℚ)]], ∅⟩ : GolState ℚ)) ∧
    0 < height ([[(1 : ℚ)]] : Cells ℚ) ∧ 0 < width ([[(1 : ℚ)]] : Cells ℚ) ∧
    readCell (compute_next_gol_frame (⟨[[(1 : ℚ)]], ∅⟩ : GolState ℚ)).cells 0 0 =
      (if (readCell ([[(1 : ℚ)]] : Cells ℚ) 0 0 = 1 ∧
            (2 ≤ ((⌊(neighbourValues ([[(1 : ℚ)]] : Cells ℚ) 0 0).sum⌋ : ℤ).toNat) ∧
              ((⌊(neighbourValues ([[(1 : ℚ)]] : Cells ℚ) 0 0).sum⌋ : ℤ).toNat) ≤ 3)) ∨
          (¬readCell ([[(1 : ℚ)]] : Cells ℚ) 0 0 = 1 ∧
            ((⌊(neighbourValues ([[(1 : ℚ)]] : Cells ℚ) 0 0).sum⌋ : ℤ).toNat) = 3)
        then 1 else 0) :=
  ⟨by decide, by decide, by decide,
    C3_discrete_rule ⟨[[(1 : ℚ)]], ∅⟩ 0 0 (by decide) (by decide) (by decide)⟩

/-- C8 as stated is false on two counts.  First, with the non-empty
ActiveSet `{(2, 2)}` the lone live cell `(0, 0)` of `c8LoneGrid` is never
re-evaluated and keeps value `1.0` after the step.  Second, even under full
evaluation (empty ActiveSet), the live cell `(1, 1)` of `c8HalfGrid` has no
live neighbour but its neighbour values sum to `3.0`, so the truncated
count is `3` and the cell survives with value `1.0`. -/
theorem C8_counterexample :
    (readCell c8LoneGrid 0 0 = 1 ∧
      (∀ r' < height c8LoneGrid, ∀ c' < width c8LoneGrid,
        (r', c') ≠ (0, 0) → readCell c8LoneGrid r' c' ≠ 1) ∧
      (∀ v ∈ neighbourValues c8LoneGrid 0 0, v ≠ 1) ∧
      readCell (compute_next_gol_frame (⟨c8LoneGrid, {(2, 2)}⟩ : GolState ℚ)).cells 0 0 = 1) ∧
    (readCell c8HalfGrid 1 1 = 1 ∧
      (∀ r' < height c8HalfGrid, ∀ c' < width c8HalfGrid,
        (r', c') ≠ (1, 1) → readCell c8HalfGrid r' c' ≠ 1) ∧
      (∀ v ∈ neighbourValues c8HalfGrid 1 1, v ≠ 1) ∧
      readCell (compute_next_gol_frame (⟨c8HalfGrid, ∅⟩ : GolState ℚ)).cells 1 1 = 1) := by
  with_unfolding_all exact of_decide_eq_true rfl

/-- C8 amended: on a grid all of whose values are `0.0` or `1.0`, a unique
live cell none of whose eight toroidal neighbour values is `1.0` dies on
the next step, provided the ActiveSet is empty or contains that cell. -/
theorem C8_amended (cells : Cells ℚ) (A : Finset (ℕ × ℕ)) (r c : ℕ)
    (hr : r < height cells) (hc : c < width cells)
    (hbin : ∀ r' < height cells, ∀ c' < width cells,
      readCell cells r' c' = 0 ∨ readCell cells r' c' = 1)
    (halive : readCell cells r c = 1)
    (hunique : ∀ r' < height cells, ∀ c' < width cells,
      (r', c') ≠ (r, c) → readCell cells r' c' ≠ 1)
    (hnb : ∀ v ∈ neighbourValues cells r c, v ≠ 1)
    (hA : A = ∅ ∨ (r, c) ∈ A) :
    readCell (compute_next_gol_frame (⟨cells, A⟩ : GolState ℚ)).cells r c = 0 := by
  have h0h : 0 < height cells := lt_of_le_of_lt (Nat.zero_le r) hr
  have h0w : 0 < width cells := lt_of_le_of_lt (Nat.zero_le c) hc
  have key : ∀ x y, x < height cells → y < width cells →
      readCell cells x y ≠ 1 → readCell cells x y = 0 := by
    intro x y hx hy hne1
    rcases hbin x hx y hy with h0 | h1
    · exact h0
    · exact absurd h1 hne1
  have hsum : (neighbourValues cells r c).sum = 0 := by
    apply List.sum_eq_zero
    intro v hv
    have hne := hnb v hv
    simp only [neighbourValues, List.mem_cons, List.not_mem_nil, or_false] at hv
    rcases hv with h | h | h | h | h | h | h | h <;> subst h <;>
      apply key <;>
      first
        | exact hr
        | exact hc
        | exact wrapDec_lt _ _ h0h hr
        | exact wrapInc_lt _ _ h0h hr
        | exact wrapDec_lt _ _ h0w hc
        | exact wrapInc_lt _ _ h0w hc
        | exact hne
  have hmemE : (r, c) ∈ evalSet (⟨cells, A⟩ : GolState ℚ) := by
    unfold evalSet
    split
    · simp only [Finset.mem_product, Finset.mem_range]
      exact ⟨hr, hc⟩
    · rename_i hne
      rcases hA with h | h
      · exact absurd h hne
      · exact h
  rw [cells_gol_step, readCell_gridOfFn, if_pos ⟨hr, hc⟩, if_pos hmemE]
  simp [update_cell, floatToUsize, halive, hsum]

theorem C8_amended_witness :
    0 < height c8LoneGrid ∧ 0 < width c8LoneGrid ∧
    (∀ r' < height c8LoneGrid, ∀ c' < width c8LoneGrid,
      readCell c8LoneGrid r' c' = 0 ∨ readCell c8LoneGrid r' c' = 1) ∧
    readCell c8LoneGrid 0 0 = 1 ∧
    (∀ r' < height c8LoneGrid, ∀ c' < width c8LoneGrid,
      (r', c') ≠ (0, 0) → readCell c8LoneGrid r' c' ≠ 1) ∧
    (∀ v ∈ neighbourValues c8LoneGrid 0 0, v ≠ 1) ∧
    ((∅ : Finset (ℕ × ℕ)) = ∅ ∨ (0, 0) ∈ (∅ : Finset (ℕ × ℕ))) ∧
    readCell (compute_next_gol_frame (⟨c8LoneGrid, ∅⟩ : GolState ℚ)).cells 0 0 = 0 :=
  ⟨by decide, by decide, by decide, by decide, by decide, by decide, by decide,
    C8_amended c8LoneGrid ∅ 0 0 (by decide) (by decide) (by decide) (by decide)
      (by decide) (by decide) (by decide)⟩

set_option maxRecDepth 100000 in
set_option maxHeartbeats 8000000 in
/-- C9: starting from an empty ActiveSet on an otherwise empty 16×16
toroidal grid containing the standard 5-cell glider, after exactly 4
Discrete steps the grid is the initial grid with the glider translated one
cell diagonally. -/
theorem C9_glider_period_four :
    (compute_next_gol_frame^[4] ⟨glider16, ∅⟩).cells = glider16Shifted := by
  with_unfolding_all rfl

theorem length_listResize {β : Type} (l : List β) (n : ℕ) (pad : β) :
    (listResize l n pad).length = n := by
  simp [listResize]
  omega

theorem getD_listResize {β : Type} (l : List β) (n : ℕ) (pad : β) (i : ℕ) (d : β) :
    (listResize l n pad).getD i d =
      if i < n then (if i < l.length then l.getD i d else pad) else d := by
  unfold listResize
  rw [List.getD_eq_getElem?_getD]
  by_cases hin : i < n
  · by_cases hil : i < l.length
    · have htake : i < (l.take n).length := by
        simp [List.length_take]
        omega
      rw [List.getElem?_append, if_pos htake, List.getElem?_take_of_lt hin, if_pos hin,
        if_pos hil, List.getD_eq_getElem?_getD]
    · have htake : (l.take n).length ≤ i := by
        simp [List.length_take]
        omega
      rw [List.getElem?_append_right htake]
      have hrep : (List.replicate (n - l.length) pad)[i - (l.take n).length]? = some pad := by
        apply List.getElem?_replicate_of_lt
        simp [List.length_take]
        omega
      rw [hrep, if_pos hin, if_neg hil]
      rfl
  · have hnone : (l.take n ++ List.replicate (n - l.length) pad)[i]? = none := by
      rw [List.getElem?_eq_none]
      simp [List.length_take]
      omega
    rw [hnone, if_neg hin]
    rfl

theorem length_resizeWidth (cells : Cells α) (nw : ℕ) :
    (resizeWidth cells nw).length = cells.length := by
  unfold resizeWidth
  split <;> simp

theorem getD_resizeWidth (cells : Cells α) (nw r : ℕ) (hr : r < cells.length) :
    (resizeWidth cells nw).getD r [] =
      if nw ≠ width cells then listResize (cells.getD r []) nw 0 else cells.getD r [] := by
  by_cases h : nw ≠ width cells
  · simp only [resizeWidth, if_pos h]
    rw [List.getD_eq_getElem?_getD, List.getElem?_map, List.getElem?_eq_getElem hr]
    simp [List.getD_eq_getElem?_getD, List.getElem?_eq_getElem hr]
  · simp only [resizeWidth, if_neg h]

theorem rows_resizeWidth (cells : Cells α) (nw : ℕ)
    (hrect : ∀ row ∈ cells, row.length = width cells) :
    ∀ row ∈ resizeWidth cells nw, row.length = nw := by
  intro row hrow
  unfold resizeWidth at hrow
  split at hrow
  · obtain ⟨orig, horig, rfl⟩ := List.mem_map.mp hrow
    exact length_listResize ..
  · rename_i h
    push_neg at h
    rw [hrect row hrow]
    exact h.symm

theorem length_resize (cells : Cells α) (nw nh : ℕ) : (resize cells nw nh).length = nh := by
  unfold resize
  split
  · exact length_listResize ..
  · rename_i h
    push_neg at h
    exact h.symm

theorem rows_resize (cells : Cells α) (nw nh : ℕ)
    (hrect : ∀ row ∈ cells, row.length = width cells) :
    ∀ row ∈ resize cells nw nh, row.length = nw := by
  intro row hrow
  unfold resize at hrow
  split at hrow
  · unfold listResize at hrow
    rcases List.mem_append.mp hrow with hl | hr
    · exact rows_resizeWidth cells nw hrect row (List.take_subset _ _ hl)
    · rw [List.eq_of_mem_replicate hr]
      exact List.length_replicate ..
  · exact rows_resizeWidth cells nw hrect row hrow

theorem getD_resize (cells : Cells α) (nw nh r : ℕ) :
    (resize cells nw nh).getD r [] =
      if r < nh then
        (if r < cells.length then (resizeWidth cells nw).getD r []
         else List.replicate nw 0)
      else [] := by
  unfold resize
  have hlen := length_resizeWidth cells nw
  split
  · rw [getD_listResize, hlen]
  · rename_i heq
    push_neg at heq
    by_cases hr : r < nh
    · rw [if_pos hr, if_pos (show r < cells.length by omega)]
    · rw [if_neg hr, List.getD_eq_getElem?_getD, List.getElem?_eq_none (by omega)]
      rfl

/-- Pointwise behaviour of `resize` on a rectangular grid: coordinates in
both the old and the new bounds keep their value, all other in-range
coordinates read `0`. -/
theorem readCell_resize_of_rect (cells : Cells α) (nw nh r c : ℕ)
    (hrect : ∀ row ∈ cells, row.length = width cells) :
    readCell (resize cells nw nh) r c =
      if r < nh ∧ c < nw then
        (if r < cells.length ∧ c < width cells then readCell cells r c else 0)
      else 0 := by
  unfold readCell
  rw [getD_resize]
  by_cases hrnh : r < nh
  · rw [if_pos hrnh]
    by_cases hrl : r < cells.length
    · rw [if_pos hrl, getD_resizeWidth cells nw r hrl]
      have hgetd : cells.getD r [] = cells[r] := by
        rw [List.getD_eq_getElem?_getD, List.getElem?_eq_getElem hrl]
        rfl
      have hrowlen : (cells.getD r []).length = width cells := by
        rw [hgetd]
        exact hrect _ (List.getElem_mem hrl)
      by_cases hw : nw ≠ width cells
      · rw [if_pos hw, getD_listResize, hrowlen]
        by_cases hc : c < nw
        · by_cases hcw : c < width cells
          · simp [hrnh, hrl, hc, hcw]
          · simp [hrnh, hrl, hc, hcw]
        · simp [hrnh, hrl, hc]
      · push_neg at hw
        rw [if_neg (by simp [hw])]
        by_cases hcw : c < width cells
        · simp [hrnh, hrl, hcw, hw]
        · rw [List.getD_eq_getElem?_getD (cells.getD r []),
            List.getElem?_eq_none (by omega)]
          simp [hrnh, hrl, hcw]
    · rw [if_neg hrl]
      rcases lt_or_le c nw with hc | hc
      · rw [List.getD_eq_getElem?_getD, List.getElem?_replicate_of_lt hc]
        simp [hrnh, hrl]
      · rw [List.getD_eq_getElem?_getD, List.getElem?_eq_none (by simpa using hc)]
        simp [hrnh, hrl]
  · rw [if_neg hrnh]
    simp [hrnh]

/-- C6: after `resize(w, h)` the grid has exactly `h` rows and every row
has exactly `w` columns; when the requested size equals the current size
on an axis the pass for that axis is skipped: with both sizes unchanged
the grid is returned untouched, and with the width unchanged every
surviving row is kept as the identical list. -/
theorem C6_resize_dims (cells : Cells ℚ) (nw nh : ℕ)
    (hrect : ∀ row ∈ cells, row.length = width cells) (hh : 0 < height cells) :
    ((resize cells nw nh).length = nh ∧ ∀ row ∈ resize cells nw nh, row.length = nw) ∧
    (nw = width cells → nh = height cells → resize cells nw nh = cells) ∧
    (nw = width cells → ∀ r, r < height cells → r < nh →
      (resize cells nw nh).getD r [] = cells.getD r []) := by
  have hwnoop : nw = width cells → resizeWidth cells nw = cells := by
    intro hw
    unfold resizeWidth
    rw [if_neg (by simp [hw])]
  refine ⟨⟨length_resize cells nw nh, rows_resize cells nw nh hrect⟩, ?_, ?_⟩
  · intro hw hhh
    unfold resize
    rw [hwnoop hw]
    rw [if_neg (by simp [hhh, height])]
  · intro hw r hr hrnh
    rw [getD_resize, if_pos hrnh, if_pos (show r < cells.length from hr),
      getD_resizeWidth cells nw r hr, if_neg (by simp [hw])]

theorem C6_resize_dims_witness :
    (∀ row ∈ ([[1, 0], [0, 1]] : Cells ℚ), row.length = width ([[1, 0], [0, 1]] : Cells ℚ)) ∧
    0 < height ([[1, 0], [0, 1]] : Cells ℚ) ∧
    (((resize ([[1, 0], [0, 1]] : Cells ℚ) 3 1).length = 1 ∧
        ∀ row ∈ resize ([[1, 0], [0, 1]] : Cells ℚ) 3 1, row.length = 3) ∧
      (3 = width ([[1, 0], [0, 1]] : Cells ℚ) → 1 = height ([[1, 0], [0, 1]] : Cells ℚ) →
        resize ([[1, 0], [0, 1]] : Cells ℚ) 3 1 = [[1, 0], [0, 1]]) ∧
      (3 = width ([[1, 0], [0, 1]] : Cells ℚ) → ∀ r, r < height ([[1, 0], [0, 1]] : Cells ℚ) →
        r < 1 → (resize ([[1, 0], [0, 1]] : Cells ℚ) 3 1).getD r [] =
          ([[1, 0], [0, 1]] : Cells ℚ).getD r [])) :=
  ⟨by decide, by decide, C6_resize_dims [[1, 0], [0, 1]] 3 1 (by decide) (by decide)⟩

/-- C7: a coordinate within bounds both before and after `resize` keeps
its cell value, and every cell `resize` creates (new columns and new rows)
has value `0.0`. -/
theorem C7_resize_content (cells : Cells ℚ) (nw nh r c : ℕ)
    (hrect : ∀ row ∈ cells, row.length = width cells) (hh : 0 < height cells) :
    (r < height cells → r < nh → c < width cells → c < nw →
      readCell (resize cells nw nh) r c = readCell cells r c) ∧
    (r < nh → c < nw → (height cells ≤ r ∨ width cells ≤ c) →
      readCell (resize cells nw nh) r c = 0) := by
  have hlen : height cells = cells.length := rfl
  constructor
  · intro h1 h2 h3 h4
    rw [readCell_resize_of_rect cells nw nh r c hrect, if_pos ⟨h2, h4⟩,
      if_pos ⟨by omega, h3⟩]
  · intro h1 h2 h3
    rw [readCell_resize_of_rect cells nw nh r c hrect, if_pos ⟨h1, h2⟩,
      if_neg (by omega)]

theorem leniaWrap_le (dim : ℕ) (i : ℤ) (hdim : 2 ≤ dim) :
    leniaWrap dim i ≤ dim - 2 ∧ leniaWrap dim i ≠ dim - 1 := by
  unfold leniaWrap
  have h2 : (2 : ℤ) ≤ (dim : ℤ) := by exact_mod_cast hdim
  have hnn : 0 ≤ i % ((dim : ℤ) - 1) := Int.emod_nonneg i (by omega)
  have hlt : i % ((dim : ℤ) - 1) < (dim : ℤ) - 1 := Int.emod_lt_of_pos i (by omega)
  omega

/-- C5: on a grid with `w, h ≥ 2`, every neighbour read of the Continuous
step uses the `rem_euclid (dim - 1)` wrap, so the read row is at most
`h - 2` and the read column at most `w - 2`; the last row and last column
are never read as a neighbour. -/
theorem C5_lenia_neighbour_indices (w h kernel_radius raw col : ℕ)
    (hw : 2 ≤ w) (hh : 2 ≤ h) :
    ∀ p ∈ leniaReadPositions w h kernel_radius raw col,
      p.1 ≤ h - 2 ∧ p.1 ≠ h - 1 ∧ p.2 ≤ w - 2 ∧ p.2 ≠ w - 1 := by
  intro p hp
  obtain ⟨q, hq, rfl⟩ := List.mem_map.mp hp
  unfold leniaReadPosition
  obtain ⟨h1, h2⟩ := leniaWrap_le h ((raw : ℤ) + q.1) hh
  obtain ⟨h3, h4⟩ := leniaWrap_le w ((col : ℤ) + q.2) hw
  exact ⟨h1, h2, h3, h4⟩

theorem C5_lenia_neighbour_indices_witness :
    2 ≤ 3 ∧ 2 ≤ 3 ∧ ((1, 0) ∈ leniaReadPositions 3 3 1 0 0) ∧
    ((1 : ℕ) ≤ 3 - 2 ∧ (1 : ℕ) ≠ 3 - 1 ∧ (0 : ℕ) ≤ 3 - 2 ∧ (0 : ℕ) ≠ 3 - 1) :=
  ⟨by decide, by decide, by decide,
    C5_lenia_neighbour_indices 3 3 1 0 0 (by decide) (by decide) (1, 0) (by decide)⟩

theorem C7_resize_content_witness :
    (∀ row ∈ ([[1, 0], [0, 1]] : Cells ℚ), row.length = width ([[1, 0], [0, 1]] : Cells ℚ)) ∧
    0 < height ([[1, 0], [0, 1]] : Cells ℚ) ∧
    ((0 < height ([[1, 0], [0, 1]] : Cells ℚ) → 0 < 3 →
        1 < width ([[1, 0], [0, 1]] : Cells ℚ) → 1 < 3 →
        readCell (resize ([[1, 0], [0, 1]] : Cells ℚ) 3 3) 0 1 =
          readCell ([[1, 0], [0, 1]] : Cells ℚ) 0 1) ∧
      (0 < 3 → 1 < 3 →
        (height ([[1, 0], [0, 1]] : Cells ℚ) ≤ 0 ∨ width ([[1, 0], [0, 1]] : Cells ℚ) ≤ 1) →
        readCell (resize ([[1, 0], [0, 1]] : Cells ℚ) 3 3) 0 1 = 0)) :=
  ⟨by decide, by decide, C7_resize_content [[1, 0], [0, 1]] 3 3 0 1 (by decide) (by decide)⟩

theorem length_overwriteRegion {β : Type} (lo hi : ℕ) (f : ℕ → β → β) (k : ℕ)
    (l : List β) : (overwriteRegion lo hi f k l).length = l.length := by
  induction l generalizing k with
  | nil => rfl
  | cons x xs ih => simp [overwriteRegion, ih]

/-- C10 as stated is false in its last clause: `c10StaleState` has
width = height = 1, yet its Discrete step indexes `self.cells` at the
stale active coordinate `(2, 2)` and panics. -/
theorem C10_counterexample :
    1 ≤ width c10StaleState.cells ∧ 1 ≤ height c10StaleState.cells ∧
    stepChecked c10StaleState = none :=
  ⟨le_refl 1, le_refl 1, rfl⟩

theorem golAccessesOk_of_lt (cells : Cells ℝ) (r c : ℕ)
    (hrect : ∀ row ∈ cells, row.length = width cells)
    (hr : r < height cells) (hc : c < width cells) : golAccessesOk cells r c := by
  have h0h : 0 < height cells := lt_of_le_of_lt (Nat.zero_le r) hr
  have h0w : 0 < width cells := lt_of_le_of_lt (Nat.zero_le c) hc
  have hidx : ∀ x y, x < height cells → y < width cells → idxOk cells x y := by
    intro x y hx hy
    refine ⟨hx, ?_⟩
    have hgx : cells.getD x [] = cells[x] := by
      rw [List.getD_eq_getElem?_getD, List.getElem?_eq_getElem hx]
      rfl
    rw [hgx, hrect _ (List.getElem_mem hx)]
    exact hy
  exact ⟨hidx r c hr hc,
    hidx _ _ (wrapDec_lt _ _ h0h hr) (wrapDec_lt _ _ h0w hc),
    hidx _ _ (wrapDec_lt _ _ h0h hr) hc,
    hidx _ _ (wrapDec_lt _ _ h0h hr) (wrapInc_lt _ _ h0w hc),
    hidx _ _ hr (wrapDec_lt _ _ h0w hc),
    hidx _ _ hr (wrapInc_lt _ _ h0w hc),
    hidx _ _ (wrapInc_lt _ _ h0h hr) (wrapDec_lt _ _ h0w hc),
    hidx _ _ (wrapInc_lt _ _ h0h hr) hc,
    hidx _ _ (wrapInc_lt _ _ h0h hr) (wrapInc_lt _ _ h0w hc)⟩

/-- C10 amended: construction panics (on the clamp's `usize` subtraction)
exactly when a cell count is zero; `resize` panics (on the `cells[0]`
read) exactly when the grid has no rows; `step` panics (on the same read)
whenever the grid has no rows; and under width ≥ 1 and height ≥ 1 a step
does not panic from indexing provided additionally that the grid is
rectangular, that in Discrete mode every active coordinate is within the
current bounds (a shrinking `resize` can violate this and make the step
panic), and that in Continuous mode the kernel radius is zero or both
dimensions are at least 2 (a dimension of 1 makes the wrap modulus
zero). -/
theorem C10_amended :
    (∀ (wcell_count hcell_count area_w_min area_w_max area_h_min area_h_max : ℕ)
        (mode : Mode) (delta_t : ℝ) (kernel_radius : ℕ) (seed : ℕ → ℕ → ℝ),
      newChecked wcell_count hcell_count area_w_min area_w_max area_h_min area_h_max
          mode delta_t kernel_radius seed = none ↔
        wcell_count = 0 ∨ hcell_count = 0) ∧
    (∀ (s : Lenia) (nw nh : ℕ), resizeChecked s nw nh = none ↔ height s.cells = 0) ∧
    (∀ s : Lenia, height s.cells = 0 → stepChecked s = none) ∧
    (∀ s : Lenia, 0 < height s.cells →
      (∀ row ∈ s.cells, row.length = width s.cells) →
      (s.mode = Mode.GameOfLife →
        ∀ p ∈ s.active_cells, p.1 < height s.cells ∧ p.2 < width s.cells) →
      (s.mode = Mode.Lenia →
        s.kernel_radius = 0 ∨ (2 ≤ width s.cells ∧ 2 ≤ height s.cells)) →
      stepChecked s ≠ none) := by
  refine ⟨?_, ?_, ?_, ?_⟩
  · intro wc hc awmin awmax ahmin ahmax mode dt kr seed
    constructor
    · intro hnone
      unfold newChecked at hnone
      split_ifs at hnone with h1 h2
      · exact Or.inl h1.2
      · exact Or.inr h2.2
    · intro h
      unfold newChecked
      rcases h with h | h
      · rw [if_pos ⟨by omega, h⟩]
      · by_cases h1 : awmax ≥ wc ∧ wc = 0
        · rw [if_pos h1]
        · rw [if_neg h1, if_pos ⟨by omega, h⟩]
  · intro s nw nh
    constructor
    · intro hnone
      unfold resizeChecked at hnone
      split_ifs at hnone with h1
      exact h1
    · intro h
      unfold resizeChecked
      rw [if_pos (show s.cells.length = 0 from h)]
  · intro s h
    unfold stepChecked
    cases hm : s.mode with
    | Lenia =>
      show leniaStepChecked s = none
      unfold leniaStepChecked
      rw [if_pos (show s.cells.length = 0 from h)]
    | GameOfLife =>
      show golStepChecked s = none
      unfold golStepChecked
      rw [if_pos (show s.cells.length = 0 from h)]
  · intro s hh hrect hgol hlenia
    have h0 : height s.cells = s.cells.length := rfl
    have hlen : ¬(s.cells.length = 0) := by omega
    unfold stepChecked
    cases hmode : s.mode with
    | Lenia =>
      show leniaStepChecked s ≠ none
      unfold leniaStepChecked
      rcases hlenia hmode with hkr | ⟨hw2, hh2⟩
      · have hg2 : ¬(0 < width s.cells ∧ 1 ≤ s.kernel_radius ∧
            (width s.cells = 1 ∨ height s.cells = 1)) := by
          simp [hkr]
        have hvo : validOffsets 0 = [] := by decide
        have hg3 : ∀ raw < height s.cells, ∀ col < width s.cells,
            ∀ p ∈ leniaReadPositions (width s.cells) (height s.cells) s.kernel_radius raw col,
              idxOk s.cells p.1 p.2 := by
          intro raw hraw col hcol p hp
          rw [hkr] at hp
          simp only [leniaReadPositions, hvo, List.map_nil] at hp
          exact absurd hp (List.not_mem_nil p)
        rw [if_neg hlen, if_neg hg2, if_pos hg3]
        simp
      · have hg2 : ¬(0 < width s.cells ∧ 1 ≤ s.kernel_radius ∧
            (width s.cells = 1 ∨ height s.cells = 1)) := by omega
        have hg3 : ∀ raw < height s.cells, ∀ col < width s.cells,
            ∀ p ∈ leniaReadPositions (width s.cells) (height s.cells) s.kernel_radius raw col,
              idxOk s.cells p.1 p.2 := by
          intro raw hraw col hcol p hp
          obtain ⟨q, hq, rfl⟩ := List.mem_map.mp hp
          simp only [leniaReadPosition]
          obtain ⟨h1, h2⟩ := leniaWrap_le (height s.cells) ((raw : ℤ) + q.1) hh2
          obtain ⟨h3, h4⟩ := leniaWrap_le (width s.cells) ((col : ℤ) + q.2) hw2
          have hlt1 : leniaWrap (height s.cells) ((raw : ℤ) + q.1) < s.cells.length := by
            omega
          refine ⟨hlt1, ?_⟩
          have hgx : s.cells.getD (leniaWrap (height s.cells) ((raw : ℤ) + q.1)) [] =
              s.cells[leniaWrap (height s.cells) ((raw : ℤ) + q.1)] := by
            rw [List.getD_eq_getElem?_getD, List.getElem?_eq_getElem hlt1]
            rfl
          rw [hgx, hrect _ (List.getElem_mem hlt1)]
          omega
        rw [if_neg hlen, if_neg hg2, if_pos hg3]
        simp
    | GameOfLife =>
      show golStepChecked s ≠ none
      have hg2 : ∀ p ∈ evalSet (⟨s.cells, s.active_cells⟩ : GolState ℝ),
          golAccessesOk s.cells p.1 p.2 := by
        intro p hp
        unfold evalSet at hp
        split at hp
        · simp only [Finset.mem_product, Finset.mem_range] at hp
          exact golAccessesOk_of_lt s.cells p.1 p.2 hrect hp.1 hp.2
        · obtain ⟨hp1, hp2⟩ := hgol hmode p hp
          exact golAccessesOk_of_lt s.cells p.1 p.2 hrect hp1 hp2
      unfold golStepChecked
      rw [if_neg hlen, if_pos hg2]
      simp

end LeniaSim
